import Mathlib

/-!
Verification of the mesh-subdivision / graph message-passing core of the
MorphiNet repository (`src/model/networks.py`): the `Subdivision` face-index
builder, the `GSNLayer` message-passing layer and the `GSN` subdivision
network.

The embedding follows the source:
* a mesh is a packed vertex buffer (rational 3-vectors) and a packed face
  buffer (index triples), mirroring `pytorch3d.structures.Meshes`;
* `edges_packed` is derived from the faces exactly as pytorch3d derives it:
  per face the three edges `e12, e20, e01` (each sorted so that the smaller
  vertex index comes first), concatenated block-wise over faces, then
  deduplicated and sorted — pytorch3d sorts by the hash `V * min + max`,
  which for a valid mesh (all indices `< V`) is lexicographic order on the
  sorted pair, which is what we use;
* `faces_packed_to_edges_packed` maps each face to the positions of its
  three edges (in the order `e12, e20, e01`) inside `edges_packed`;
* Python's fallible list indexing is `Except String` with the message
  `"list index out of range"`; boolean tensor masks are `List Bool`.
-/

/-- Rational 3-vectors stand in for float 3-vectors of vertex positions. -/
abbrev V3 : Type := ℚ × ℚ × ℚ

/-- A face is a triple of vertex indices (triangular mesh). -/
abbrev Face : Type := Nat × Nat × Nat

def v3zero : V3 := (0, 0, 0)

def v3add (a b : V3) : V3 := (a.1 + b.1, a.2.1 + b.2.1, a.2.2 + b.2.2)

def v3sub (a b : V3) : V3 := (a.1 - b.1, a.2.1 - b.2.1, a.2.2 - b.2.2)

def v3smul (s : ℚ) (a : V3) : V3 := (s * a.1, s * a.2.1, s * a.2.2)

def v3dot (a b : V3) : ℚ := a.1 * b.1 + a.2.1 * b.2.1 + a.2.2 * b.2.2

def v3cross (a b : V3) : V3 :=
  (a.2.1 * b.2.2 - a.2.2 * b.2.1,
   a.2.2 * b.1 - a.1 * b.2.2,
   a.1 * b.2.1 - a.2.1 * b.1)

/-- `verts[edges].mean(dim=1)`: the midpoint of two vertex positions. -/
def edgeMidpoint (a b : V3) : V3 :=
  ((a.1 + b.1) / 2, (a.2.1 + b.2.1) / 2, (a.2.2 + b.2.2) / 2)

/-- A mesh: packed vertex positions and packed triangular faces,
mirroring a single-mesh `pytorch3d.structures.Meshes`. -/
structure Mesh where
  verts : List V3
  faces : List Face

/-- An undirected edge as stored by pytorch3d: the pair sorted so the
smaller vertex index comes first (`edges.sort(dim=1)`). -/
def sortEdge (a b : Nat) : Nat × Nat := if a ≤ b then (a, b) else (b, a)

/-- The three (sorted) edges of each face in pytorch3d's block order:
all `e12` edges, then all `e20` edges, then all `e01` edges
(`torch.cat([e12, e20, e01], dim=0)`). -/
def allFaceEdges (faces : List Face) : List (Nat × Nat) :=
  faces.map (fun f => sortEdge f.2.1 f.2.2) ++
  faces.map (fun f => sortEdge f.2.2 f.1) ++
  faces.map (fun f => sortEdge f.1 f.2.1)

/-- Lexicographic comparison of sorted edge pairs; equals pytorch3d's hash
order `V * min + max` whenever all vertex indices are `< V`. -/
def edgeLe (a b : Nat × Nat) : Bool :=
  a.1 < b.1 || (a.1 == b.1 && a.2 ≤ b.2)

def insertEdge (a : Nat × Nat) : List (Nat × Nat) → List (Nat × Nat)
  | [] => [a]
  | b :: bs => if edgeLe a b then a :: b :: bs else b :: insertEdge a bs

def sortEdges (l : List (Nat × Nat)) : List (Nat × Nat) :=
  l.foldr insertEdge []

/-- `Meshes.edges_packed()`: the deduplicated, sorted list of the mesh's
undirected edges, each stored as the pair `(min, max)`.  Depends only on
the face buffer. -/
def edgesPackedOfFaces (faces : List Face) : List (Nat × Nat) :=
  sortEdges (allFaceEdges faces).dedup

def Mesh.edgesPacked (m : Mesh) : List (Nat × Nat) :=
  edgesPackedOfFaces m.faces

/-- Position of the first occurrence of an edge in an edge list (the
`return_inverse` output of `torch.unique`; `edges_packed` has no
duplicates, so the first occurrence is the occurrence). -/
def idxOf : List (Nat × Nat) → (Nat × Nat) → Nat
  | [], _ => 0
  | b :: bs, e => if b = e then 0 else idxOf bs e + 1

/-- `Meshes.faces_packed_to_edges_packed()`: for each face, the indices in
`edges_packed` of its three edges, in the order `(e12, e20, e01)` — the
edge opposite vertex 0, vertex 1, vertex 2 respectively. -/
def Mesh.facesToEdges (m : Mesh) : List (Nat × Nat × Nat) :=
  m.faces.map (fun f =>
    (idxOf (m.edgesPacked) (sortEdge f.2.1 f.2.2),
     idxOf (m.edgesPacked) (sortEdge f.2.2 f.1),
     idxOf (m.edgesPacked) (sortEdge f.1 f.2.1)))

/-- Offsetting a face-to-edge triple by the vertex count, so edge-midpoint
vertices are addressed contiguously after all existing vertices
(`verts_packed.shape[0] + mesh.faces_packed_to_edges_packed()`). -/
def offsetTriple (V : Nat) (t : Nat × Nat × Nat) : Nat × Nat × Nat :=
  (V + t.1, V + t.2.1, V + t.2.2)

/-- Boolean-mask tensor indexing `t[mask]`: keep the entries whose mask
bit is `true` (Python requires the mask to have the tensor's length; the
theorems below carry that hypothesis). -/
def maskFilter (mask : List Bool) (l : List α) : List α :=
  (l.zip mask).filterMap (fun p => if p.2 then some p.1 else none)

/-- The four child-face blocks `f0 ++ f1 ++ f2 ++ f3` produced for the
faces selected for subdivision (`torch.cat([f0, f1, f2, f3], dim=0)`). -/
def subdividedChildren (faces_packed : List Face)
    (faces_packed_to_edges_packed : List (Nat × Nat × Nat)) : List Face :=
  let f0 := List.zipWith (fun f e => (f.1, e.2.2, e.2.1))
    faces_packed faces_packed_to_edges_packed
  let f1 := List.zipWith (fun f e => (f.2.1, e.1, e.2.2))
    faces_packed faces_packed_to_edges_packed
  let f2 := List.zipWith (fun f e => (f.2.2, e.2.1, e.1))
    faces_packed faces_packed_to_edges_packed
  let f3 := faces_packed_to_edges_packed
  f0 ++ f1 ++ f2 ++ f3

/-- `Subdivision.subdivide_faces_fn(mesh, allow_subdiv_faces)`. -/
def subdivide_faces_fn (m : Mesh) (allow_subdiv_faces : Option (List Bool)) :
    List Face :=
  let faces_packed := m.faces
  let faces_packed_to_edges_packed :=
    (m.facesToEdges).map (offsetTriple m.verts.length)
  match allow_subdiv_faces with
  | none => subdividedChildren faces_packed faces_packed_to_edges_packed
  | some allow =>
      maskFilter (allow.map (!·)) m.faces ++
      subdividedChildren (maskFilter allow faces_packed)
        (maskFilter allow faces_packed_to_edges_packed)

/-- The constructor's edge-midpoint vertex step:
`torch.cat([verts, verts[edges].mean(dim=1)], dim=0)`. -/
def newVertsStep (m : Mesh) : List V3 :=
  m.verts ++
    (m.edgesPacked).map (fun e =>
      edgeMidpoint (m.verts.getD e.1 v3zero) (m.verts.getD e.2 v3zero))

/-- `mesh_label.tile([4])` on a 1-D label tensor: the whole array repeated
four times. -/
def tile4 (l : List α) : List α := l ++ (l ++ (l ++ l))

/-- Python list indexing `xs[i]`, raising `IndexError` when out of range. -/
def pyIndex (l : List α) (i : Nat) : Except String α :=
  match l[i]? with
  | some a => Except.ok a
  | none => Except.error "list index out of range"

/-- One iteration of the loop in `Subdivision.__init__`, followed by the
remaining iterations (`fuel` many, level counter `l`): subdivide the faces
with the level's allow entry, append edge midpoints to the vertices, build
the next mesh, tile the labels. -/
def subdivisionInitAux (mesh : Mesh) (mesh_label : Option (List Nat))
    (allow_subdiv_faces : List (Option (List Bool))) (l : Nat) :
    Nat → Except String (List (List Face) × List (Option (List Nat)))
  | 0 => Except.ok ([], [])
  | fuel + 1 =>
    match pyIndex allow_subdiv_faces l with
    | Except.error e => Except.error e
    | Except.ok allow =>
      let new_faces := subdivide_faces_fn mesh allow
      let new_verts := newVertsStep mesh
      let mesh' : Mesh := ⟨new_verts, new_faces⟩
      let mesh_label' := mesh_label.map tile4
      match subdivisionInitAux mesh' mesh_label' allow_subdiv_faces (l + 1) fuel with
      | Except.error e => Except.error e
      | Except.ok (fs, ls) => Except.ok (new_faces :: fs, mesh_label' :: ls)

/-- `Subdivision.__init__(mesh, num_layers, mesh_label, allow_subdiv_faces)`:
returns the cached `faces_levels` and `labels_levels`, or the Python
`IndexError` raised when `allow_subdiv_faces[l]` is accessed out of range. -/
def subdivisionInit (mesh : Mesh) (num_layers : Nat)
    (mesh_label : Option (List Nat))
    (allow_subdiv_faces : List (Option (List Bool))) :
    Except String (List (List Face) × List (Option (List Nat))) :=
  subdivisionInitAux mesh mesh_label allow_subdiv_faces 0 num_layers

/-! ### `GSNLayer.forward`

Per-vertex features are real-valued vectors (`List ℝ`); the three
`DenseLinear` layers (`bias=False`) are weight matrices given as lists of
rows, interleaved with `LeakyReLU` (default negative slope `0.01`). -/

/-- Dot product of two feature vectors. -/
def dotL (v w : List ℝ) : ℝ := (List.zipWith (· * ·) v w).sum

/-- A bias-free linear layer: matrix (list of rows) times vector. -/
def matVec (W : List (List ℝ)) (v : List ℝ) : List ℝ :=
  W.map (fun row => dotL row v)

/-- `LeakyReLU` with the default negative slope `0.01`. -/
noncomputable def leakyRelu (t : ℝ) : ℝ := if t < 0 then 0.01 * t else t

/-- `self.lin`: Linear → LeakyReLU → Linear → LeakyReLU → Linear. -/
noncomputable def linMLP (W1 W2 W3 : List (List ℝ)) (v : List ℝ) : List ℝ :=
  matVec W3 ((matVec W2 ((matVec W1 v).map leakyRelu)).map leakyRelu)

/-- `torch_geometric.utils.degree(col, N)` at one vertex: the number of
occurrences of the vertex in `col`. -/
noncomputable def torchDegree (col : List Nat) (i : Nat) : ℝ :=
  (col.count i : ℝ)

/-- `deg.pow(-0.5)` followed by `deg_inv_sqrt[deg_inv_sqrt == inf] = 0`:
the float power `0 ** -0.5` is `inf`, which the code replaces by `0`; for
positive degree the value is `1 / sqrt deg` and no `inf` arises. -/
noncomputable def degInvSqrt (d : ℝ) : ℝ :=
  if d = 0 then 0 else (Real.sqrt d)⁻¹

def vecSub (v w : List ℝ) : List ℝ := List.zipWith (· - ·) v w

def vecSmul (s : ℝ) (v : List ℝ) : List ℝ := v.map (fun t => s * t)

/-- Scatter-add aggregation: messages summed into a zero vector of the
output dimension. -/
def vecSum (dim : Nat) (l : List (List ℝ)) : List ℝ :=
  l.foldr (fun v acc => List.zipWith (· + ·) v acc) (List.replicate dim 0)

/-- `GSNLayer.forward(x, edge_index)`: transform each vertex feature with
the MLP, compute the symmetric normalization `deg⁻¹ᐟ²(row)·deg⁻¹ᐟ²(col)`
from the in-degree (occurrences in `edge_index[1]`), then for each target
vertex `i` sum `norm · (h[j] − h[i])` over the edges `(j, i)` whose second
component is `i` (`aggr="add"`, PyG flow source-to-target). -/
noncomputable def gsnLayerForward (W1 W2 W3 : List (List ℝ))
    (x : List (List ℝ)) (edge_index : List (Nat × Nat)) : List (List ℝ) :=
  let h := x.map (linMLP W1 W2 W3)
  let col := edge_index.map (fun e => e.2)
  let dis := fun i => degInvSqrt (torchDegree col i)
  (List.range x.length).map (fun i =>
    vecSum W3.length
      ((edge_index.filter (fun e => e.2 == i)).map (fun e =>
        vecSmul (dis e.1 * dis e.2) (vecSub (h.getD e.1 []) (h.getD e.2 [])))))

/-! ### `GSN.forward`

The batch is a list of per-sample vertex buffers over a shared face
topology (all samples share the template topology, and the precomputed
face index is broadcast across the batch).  The learned per-level
`GSNLayer` is abstracted as a function from the packed vertex positions
and the packed edge index to per-vertex offsets, which is how
`GSN.forward` consumes it. -/

/-- A learned offset layer: vertex positions and edge index to offsets. -/
abbrev OffsetLayer : Type := List V3 → List (Nat × Nat) → List V3

/-- `meshes.offset_verts(offsets)`: elementwise vertex translation. -/
def offsetVerts (vs offs : List V3) : List V3 := List.zipWith v3add vs offs

/-- The edge index `GSN.forward` hands to each layer,
`meshes.edges_packed().t().contiguous()`: the packed undirected edge list
(the transposition is a memory-layout change only). -/
def gsnEdgeIndex (faces : List Face) : List (Nat × Nat) :=
  edgesPackedOfFaces faces

/-- Step 1 of a `GSN.forward` level: deform every sample's vertices by the
layer's offsets (`meshes.offset_verts`). -/
def gsnDeformed (layer : OffsetLayer) (verts : List (List V3))
    (faces : List Face) : List (List V3) :=
  verts.map (fun vs => offsetVerts vs (layer vs (gsnEdgeIndex faces)))

/-- Step 2 of a `GSN.forward` level when subdividing: append the
edge-midpoint vertices (`verts[:, edges].mean(dim=2)`, edges taken from
`meshes[0].edges_packed()`) to every sample's vertex buffer. -/
def appendEdgeMidpoints (verts : List (List V3)) (faces : List Face) :
    List (List V3) :=
  verts.map (fun vs =>
    vs ++ (edgesPackedOfFaces faces).map (fun e =>
      edgeMidpoint (vs.getD e.1 v3zero) (vs.getD e.2 v3zero)))

/-- The body of the loop in `GSN.forward` for level `l`: deform the
vertices, then — when the `subdivided_faces` list is non-empty — index it
at `l` (raising `IndexError` out of range), append edge midpoints and
adopt the indexed face list for the whole batch; when the list is empty,
retain the deformed vertices and the current faces. -/
def gsnLevel (layer : OffsetLayer) (verts : List (List V3))
    (faces : List Face) (subdivided_faces : List (List Face)) (l : Nat) :
    Except String (List (List V3) × List Face) :=
  let deformed := gsnDeformed layer verts faces
  if 0 < subdivided_faces.length then
    match pyIndex subdivided_faces l with
    | Except.error e => Except.error e
    | Except.ok new_faces =>
        Except.ok (appendEdgeMidpoints deformed faces, new_faces)
  else
    Except.ok (deformed, faces)

/-- The loop of `GSN.forward` from level `l` on: run `gsnLevel` for each
remaining layer, collecting every level's output mesh. -/
def gsnForwardAux (layers : List OffsetLayer) (verts : List (List V3))
    (faces : List Face) (subdivided_faces : List (List Face)) (l : Nat) :
    Except String (List (List (List V3) × List Face)) :=
  match layers with
  | [] => Except.ok []
  | layer :: rest =>
    match gsnLevel layer verts faces subdivided_faces l with
    | Except.error e => Except.error e
    | Except.ok (v', f') =>
      match gsnForwardAux rest v' f' subdivided_faces (l + 1) with
      | Except.error e => Except.error e
      | Except.ok outs => Except.ok ((v', f') :: outs)

/-- `GSN.forward(meshes, subdivided_faces)`: the ordered sequence of
per-level output meshes, or the Python `IndexError` raised by
`subdivided_faces[l]`. -/
def gsnForward (layers : List OffsetLayer) (verts : List (List V3))
    (faces : List Face) (subdivided_faces : List (List Face)) :
    Except String (List (List (List V3) × List Face)) :=
  gsnForwardAux layers verts faces subdivided_faces 0

/-- An offset layer returning zero offsets (the identity learned
transform). -/
def zeroLayer : OffsetLayer := fun vs _ => vs.map (fun _ => v3zero)

/-! ### Geometry for the winding-order claim -/

/-- Position of vertex `i` in a vertex buffer. -/
def posAt (vs : List V3) (i : Nat) : V3 := vs.getD i v3zero

/-- The (unnormalized) normal of a triangle: the cross product of two edge
vectors.  A face winds counter-clockwise under the normal convention `n`
when `v3dot (areaVec p q r) n > 0`. -/
def areaVec (p q r : V3) : V3 := v3cross (v3sub q p) (v3sub r p)

/-- Stated from the spec's words for the label-propagation claim: each
parent label repeated 4 times consecutively, in parent order (to be
compared with the `tile4` behaviour of the source). -/
def labelsRepeatedConsecutively (l : List Nat) : List Nat :=
  l.flatMap (fun a => [a, a, a, a])

/-! ### Concrete meshes used as witnesses -/

/-- A single triangle in the `z = 0` plane, counter-clockwise when viewed
from `+z`. -/
def M1 : Mesh := ⟨[(0, 0, 0), (1, 0, 0), (0, 1, 0)], [(0, 1, 2)]⟩

/-- A fan of three triangles. -/
def M3 : Mesh :=
  ⟨[(0, 0, 0), (1, 0, 0), (1, 1, 0), (0, 1, 0), (-1, 1, 0)],
   [(0, 1, 2), (0, 2, 3), (0, 3, 4)]⟩

/-- A strip of ten triangles. -/
def M10 : Mesh :=
  ⟨(List.range 12).map (fun i => ((i : ℚ), (0 : ℚ), (0 : ℚ))),
   [(0, 1, 2), (1, 3, 2), (2, 3, 4), (3, 5, 4), (4, 5, 6),
    (5, 7, 6), (6, 7, 8), (7, 9, 8), (8, 9, 10), (9, 11, 10)]⟩

/-- The allow-mask selecting faces `{0, 3, 7}` of a 10-face mesh. -/
def mask10 : List Bool :=
  [true, false, false, true, false, false, false, true, false, false]

section BasicLemmas

theorem length_subdividedChildren (fp : List Face) (fe : List (Nat × Nat × Nat))
    (h : fe.length = fp.length) :
    (subdividedChildren fp fe).length = 4 * fp.length := by
  simp [subdividedChildren, h]
  omega

theorem length_facesToEdges (m : Mesh) :
    (m.facesToEdges).length = m.faces.length := by
  simp [Mesh.facesToEdges]

theorem maskFilter_cons (b : Bool) (mask : List Bool) (a : α) (l : List α) :
    maskFilter (b :: mask) (a :: l)
      = if b then a :: maskFilter mask l else maskFilter mask l := by
  cases b <;> simp [maskFilter]

theorem length_maskFilter (mask : List Bool) (l : List α)
    (h : mask.length = l.length) :
    (maskFilter mask l).length = mask.count true := by
  induction mask generalizing l with
  | nil => simp [maskFilter]
  | cons b ms ih =>
    cases l with
    | nil => simp at h
    | cons a as =>
      have h' : ms.length = as.length := by simpa using h
      cases b <;> simp [maskFilter_cons, ih as h', List.count_cons]

theorem maskFilter_sublist (mask : List Bool) (l : List α) :
    List.Sublist (maskFilter mask l) l := by
  induction mask generalizing l with
  | nil => simp [maskFilter]
  | cons b ms ih =>
    cases l with
    | nil => simp [maskFilter]
    | cons a as =>
      cases b with
      | false => exact (by simpa [maskFilter_cons] using (ih as).cons a)
      | true => simpa [maskFilter_cons] using (ih as).cons₂ a

theorem count_true_map_not (mask : List Bool) :
    (mask.map (!·)).count true = mask.count false := by
  induction mask with
  | nil => rfl
  | cons b ms ih => cases b <;> simp [List.count_cons, ih]

theorem count_false_add_count_true (mask : List Bool) :
    mask.count false + mask.count true = mask.length := by
  induction mask with
  | nil => rfl
  | cons b ms ih => cases b <;> simp [List.count_cons, ih] <;> omega

theorem length_tile4 (l : List α) : (tile4 l).length = 4 * l.length := by
  simp [tile4]; omega

theorem count_tile4 [DecidableEq α] (a : α) (l : List α) :
    (tile4 l).count a = 4 * l.count a := by
  simp [tile4, List.count_append]; omega

theorem getD_append_offset (l1 l2 : List α) (d : α) (n i : Nat)
    (h : l1.length = n) :
    (l1 ++ l2).getD (n + i) d = l2.getD i d := by
  subst h
  rw [List.getD_append_right l1 l2 d _ (Nat.le_add_right _ _)]
  congr 1
  omega

theorem getD_tile4 (l : List α) (d : α) (i k : Nat)
    (hi : i < l.length) (hk : k < 4) :
    (tile4 l).getD (k * l.length + i) d = l.getD i d := by
  have h0 : (l ++ (l ++ (l ++ l))).getD i d = l.getD i d :=
    List.getD_append _ _ _ _ hi
  interval_cases k
  · simpa [tile4] using h0
  · have h1 : (tile4 l).getD (l.length + i) d = l.getD i d := by
      rw [show tile4 l = l ++ (l ++ (l ++ l)) from rfl,
        getD_append_offset l _ d l.length _ rfl,
        List.getD_append _ _ _ _ hi]
    have harith : 1 * l.length + i = l.length + i := by omega
    rw [harith]; exact h1
  · have h2 : (tile4 l).getD (l.length + (l.length + i)) d = l.getD i d := by
      rw [show tile4 l = l ++ (l ++ (l ++ l)) from rfl,
        getD_append_offset l _ d l.length _ rfl,
        getD_append_offset l _ d l.length _ rfl,
        List.getD_append _ _ _ _ hi]
    have harith : 2 * l.length + i = l.length + (l.length + i) := by omega
    rw [harith]; exact h2
  · have h3 : (tile4 l).getD (l.length + (l.length + (l.length + i))) d
        = l.getD i d := by
      rw [show tile4 l = l ++ (l ++ (l ++ l)) from rfl,
        getD_append_offset l _ d l.length _ rfl,
        getD_append_offset l _ d l.length _ rfl,
        getD_append_offset l _ d l.length _ rfl]
    have harith : 3 * l.length + i = l.length + (l.length + (l.length + i)) := by
      omega
    rw [harith]; exact h3

theorem mem_insertEdge {b a : Nat × Nat} {l : List (Nat × Nat)} :
    b ∈ insertEdge a l ↔ b = a ∨ b ∈ l := by
  induction l with
  | nil => simp [insertEdge]
  | cons c cs ih =>
    simp only [insertEdge]
    split
    · simp
    · simp [ih]; tauto

theorem mem_sortEdges {a : Nat × Nat} {l : List (Nat × Nat)} :
    a ∈ sortEdges l ↔ a ∈ l := by
  induction l with
  | nil => simp [sortEdges]
  | cons c cs ih =>
    simp only [sortEdges, List.foldr] at ih ⊢
    rw [mem_insertEdge, ih, List.mem_cons]

theorem nodup_insertEdge {a : Nat × Nat} {l : List (Nat × Nat)}
    (ha : a ∉ l) (hl : l.Nodup) : (insertEdge a l).Nodup := by
  induction l with
  | nil => simp [insertEdge]
  | cons c cs ih =>
    simp only [insertEdge]
    split
    · exact List.nodup_cons.mpr ⟨ha, hl⟩
    · have hac : a ≠ c := fun h => ha (h ▸ List.mem_cons_self c cs)
      have hcs : a ∉ cs := fun h => ha (List.mem_cons_of_mem c h)
      rcases List.nodup_cons.mp hl with ⟨hc, hcs'⟩
      refine List.nodup_cons.mpr ⟨?_, ih hcs hcs'⟩
      rw [mem_insertEdge]
      rintro (h | h)
      · exact hac h.symm
      · exact hc h

theorem nodup_sortEdges {l : List (Nat × Nat)} (h : l.Nodup) :
    (sortEdges l).Nodup := by
  induction l with
  | nil => simp [sortEdges]
  | cons c cs ih =>
    rcases List.nodup_cons.mp h with ⟨hc, hcs⟩
    simp only [sortEdges, List.foldr] at ih ⊢
    exact nodup_insertEdge (fun hm => hc (mem_sortEdges.mp hm)) (ih hcs)

theorem mem_edgesPacked {e : Nat × Nat} {faces : List Face} :
    e ∈ edgesPackedOfFaces faces ↔ e ∈ allFaceEdges faces := by
  rw [edgesPackedOfFaces, mem_sortEdges, List.mem_dedup]

theorem sortEdge_fst_le_snd (a b : Nat) :
    (sortEdge a b).1 ≤ (sortEdge a b).2 := by
  unfold sortEdge; split <;> simp <;> omega

theorem idxOf_lt_length {l : List (Nat × Nat)} {e : Nat × Nat} (h : e ∈ l) :
    idxOf l e < l.length := by
  induction l with
  | nil => simp at h
  | cons b bs ih =>
    simp only [idxOf]
    split
    · simp
    · next hne =>
      have : e ∈ bs := by
        rcases List.mem_cons.mp h with h' | h'
        · exact absurd h'.symm hne
        · exact h'
      simpa using ih this

theorem getD_idxOf {l : List (Nat × Nat)} {e : Nat × Nat} (h : e ∈ l)
    (d : Nat × Nat) : l.getD (idxOf l e) d = e := by
  induction l with
  | nil => simp at h
  | cons b bs ih =>
    simp only [idxOf]
    split
    · next heq => simpa using heq
    · next hne =>
      have hmem : e ∈ bs := by
        rcases List.mem_cons.mp h with h' | h'
        · exact absurd h'.symm hne
        · exact h'
      simpa [List.getD_cons_succ] using ih hmem

theorem getD_zipWith (f : α → β → γ) (as : List α) (bs : List β) (i : Nat)
    (ha : i < as.length) (hb : i < bs.length) (d : γ) (da : α) (db : β) :
    (List.zipWith f as bs).getD i d = f (as.getD i da) (bs.getD i db) := by
  have hz : i < (List.zipWith f as bs).length := by
    simp [List.length_zipWith]; omega
  rw [List.getD_eq_getElem _ _ hz, List.getElem_zipWith,
    List.getD_eq_getElem _ _ ha, List.getD_eq_getElem _ _ hb]

end BasicLemmas

theorem subdivisionInit_one_level (m : Mesh) (lbl : Option (List Nat))
    (allow : Option (List Bool)) :
    subdivisionInit m 1 lbl [allow]
      = Except.ok ([subdivide_faces_fn m allow], [lbl.map tile4]) := by
  simp [subdivisionInit, subdivisionInitAux, pyIndex]

theorem length_subdivide_masked (m : Mesh) (mask : List Bool)
    (hm : mask.length = m.faces.length) :
    (subdivide_faces_fn m (some mask)).length
      = mask.count false + 4 * mask.count true := by
  have hfe : ((m.facesToEdges).map (offsetTriple m.verts.length)).length
      = m.faces.length := by simp [length_facesToEdges]
  have h1 : (maskFilter (mask.map (!·)) m.faces).length = mask.count false := by
    rw [length_maskFilter _ _ (by simpa using hm), count_true_map_not]
  have h2 : (maskFilter mask m.faces).length = mask.count true :=
    length_maskFilter _ _ hm
  have h3 : (maskFilter mask
      ((m.facesToEdges).map (offsetTriple m.verts.length))).length
      = mask.count true :=
    length_maskFilter _ _ (by rw [hfe]; exact hm)
  have h4 := length_subdividedChildren
    (maskFilter mask m.faces)
    (maskFilter mask ((m.facesToEdges).map (offsetTriple m.verts.length)))
    (h3.trans h2.symm)
  simp only [subdivide_faces_fn, List.length_append, h1, h4, h2]

theorem subdivisionInitAux_ok (allow : List (Option (List Bool))) :
    ∀ (fuel l : Nat) (mesh : Mesh) (lbl : Option (List Nat)),
      l + fuel ≤ allow.length →
      ∃ fs ls, subdivisionInitAux mesh lbl allow l fuel = Except.ok (fs, ls)
        ∧ fs.length = fuel := by
  intro fuel
  induction fuel with
  | zero => exact fun l mesh lbl _ => ⟨[], [], rfl, rfl⟩
  | succ fuel ih =>
    intro l mesh lbl h
    have hl : l < allow.length := by omega
    have ha : allow[l]? = some (allow.get ⟨l, hl⟩) := List.getElem?_eq_getElem hl
    obtain ⟨fs, ls, hrec, hlen⟩ :=
      ih (l + 1) ⟨newVertsStep mesh, subdivide_faces_fn mesh (allow.get ⟨l, hl⟩)⟩
        (lbl.map tile4) (by omega)
    refine ⟨subdivide_faces_fn mesh (allow.get ⟨l, hl⟩) :: fs,
      lbl.map tile4 :: ls, ?_, by simp [hlen]⟩
    simp only [subdivisionInitAux, pyIndex, ha]
    rw [hrec]

theorem subdivisionInitAux_error (allow : List (Option (List Bool))) :
    ∀ (fuel l : Nat) (mesh : Mesh) (lbl : Option (List Nat)),
      1 ≤ fuel → allow.length < l + fuel →
      subdivisionInitAux mesh lbl allow l fuel
        = Except.error "list index out of range" := by
  intro fuel
  induction fuel with
  | zero => intro l mesh lbl h; omega
  | succ fuel ih =>
    intro l mesh lbl _ h
    by_cases hl : l < allow.length
    · have ha : allow[l]? = some (allow.get ⟨l, hl⟩) := List.getElem?_eq_getElem hl
      have hrec := ih (l + 1)
        ⟨newVertsStep mesh, subdivide_faces_fn mesh (allow.get ⟨l, hl⟩)⟩
        (lbl.map tile4) (by omega) (by omega)
      simp only [subdivisionInitAux, pyIndex, ha]
      rw [hrec]
    · have ha : allow[l]? = none := List.getElem?_eq_none (by omega)
      simp [subdivisionInitAux, pyIndex, ha]

/-- C1: one subdivision round with no allow-mask produces exactly `4 * F`
faces (`subdivide_faces_fn`) and `V + E` vertices (the constructor's
edge-edgeMidpoint step), where `E` is the number of packed undirected edges. -/
theorem subdivide_counts (m : Mesh) :
    (subdivide_faces_fn m none).length = 4 * m.faces.length ∧
    (newVertsStep m).length = m.verts.length + (m.edgesPacked).length := by
  constructor
  · have h : ((m.facesToEdges).map (offsetTriple m.verts.length)).length
        = m.faces.length := by
      simp [length_facesToEdges]
    simpa [subdivide_faces_fn] using
      length_subdividedChildren m.faces _ h
  · simp [newVertsStep]

/-- C6 (counterexample): for the per-face label array `[0, 1, 2]`, the
label array stored after one maskless subdivision level is the whole-array
tiling `[0, 1, 2, 0, 1, 2, 0, 1, 2, 0, 1, 2]`, which is not the
consecutive-in-parent-order array `[0, 0, 0, 0, 1, 1, 1, 1, 2, 2, 2, 2]`
the claim describes. -/
theorem subdivision_labels_not_consecutive :
    subdivisionInit M3 1 (some [0, 1, 2]) [none]
      = Except.ok ([subdivide_faces_fn M3 none], [some (tile4 [0, 1, 2])]) ∧
    tile4 [0, 1, 2] = [0, 1, 2, 0, 1, 2, 0, 1, 2, 0, 1, 2] ∧
    labelsRepeatedConsecutively [0, 1, 2]
      = [0, 0, 0, 0, 1, 1, 1, 1, 2, 2, 2, 2] ∧
    tile4 [0, 1, 2] ≠ labelsRepeatedConsecutively [0, 1, 2] := by
  exact ⟨by simpa using subdivisionInit_one_level M3 (some [0, 1, 2]) none,
    by decide, by decide, by decide⟩

/-- C6 (amended): after one subdivision level with no mask, the stored
label array is the whole array tiled four times: it has length `4 * F`,
each original label occurs `4 ×` as often, and parent `i`'s label sits at
positions `k * F + i` for `k < 4` — matching the `f0 ++ f1 ++ f2 ++ f3`
block order of the generated child faces, not in consecutive runs. -/
theorem subdivision_labels_tiled (m : Mesh) (lbl : List Nat)
    (_hF : lbl.length = m.faces.length) :
    subdivisionInit m 1 (some lbl) [none]
      = Except.ok ([subdivide_faces_fn m none], [some (tile4 lbl)]) ∧
    (tile4 lbl).length = 4 * lbl.length ∧
    (∀ a, (tile4 lbl).count a = 4 * lbl.count a) ∧
    (∀ i k, i < lbl.length → k < 4 →
        (tile4 lbl).getD (k * lbl.length + i) 0 = lbl.getD i 0) := by
  exact ⟨by simpa using subdivisionInit_one_level m (some lbl) none,
    length_tile4 lbl, fun a => count_tile4 a lbl,
    fun i k hi hk => getD_tile4 lbl 0 i k hi hk⟩

theorem subdivision_labels_tiled_witness :
    (subdivisionInit M3 1 (some [0, 1, 2]) [none]
      = Except.ok ([subdivide_faces_fn M3 none], [some (tile4 [0, 1, 2])])) ∧
    (tile4 [0, 1, 2]).getD (3 * 3 + 1) 0 = 1 := by
  obtain ⟨h1, _, _, h4⟩ := subdivision_labels_tiled M3 [0, 1, 2] (by rfl)
  exact ⟨h1, by simpa using h4 1 3 (by decide) (by decide)⟩

/-- C7: with an allow-mask, the faces excluded from subdivision appear in
the output verbatim (a sublist of the original face list, in original
relative order) and first, before all subdivided child faces. -/
theorem subdivide_passthrough_first (m : Mesh) (mask : List Bool) :
    subdivide_faces_fn m (some mask)
      = maskFilter (mask.map (!·)) m.faces ++
        subdividedChildren (maskFilter mask m.faces)
          (maskFilter mask ((m.facesToEdges).map (offsetTriple m.verts.length))) ∧
    List.Sublist (maskFilter (mask.map (!·)) m.faces) m.faces ∧
    (subdivide_faces_fn m (some mask)).take
        (maskFilter (mask.map (!·)) m.faces).length
      = maskFilter (mask.map (!·)) m.faces := by
  refine ⟨rfl, maskFilter_sublist _ _, ?_⟩
  exact List.take_left _ _

/-- C8: for a mesh with 10 faces and the allow-mask selecting faces
`{0, 3, 7}`, `subdivide_faces_fn` returns exactly
`7 + 3 * 4 = 19` faces. -/
theorem subdivide_masked_ten_faces (m : Mesh) (h : m.faces.length = 10) :
    (subdivide_faces_fn m (some mask10)).length = 19 := by
  rw [length_subdivide_masked m mask10 (by rw [h]; rfl)]
  decide

theorem subdivide_masked_ten_faces_witness :
    (subdivide_faces_fn M10 (some mask10)).length = 19 :=
  subdivide_masked_ten_faces M10 (by rfl)

/-- C10: constructing `Subdivision` with `num_layers` greater than the
length of `allow_subdiv_faces` raises `IndexError` at the first level past
the list's end; with `num_layers` at most the list length the
construction succeeds and caches one face array per level. -/
theorem subdivisionInit_out_of_range (m : Mesh) (lbl : Option (List Nat))
    (allow : List (Option (List Bool))) (L : Nat) :
    (allow.length < L →
      subdivisionInit m L lbl allow = Except.error "list index out of range") ∧
    (L ≤ allow.length →
      ∃ fs ls, subdivisionInit m L lbl allow = Except.ok (fs, ls)
        ∧ fs.length = L) := by
  constructor
  · intro h
    exact subdivisionInitAux_error allow L 0 m lbl (by omega) (by omega)
  · intro h
    exact subdivisionInitAux_ok allow L 0 m lbl (by omega)

theorem subdivisionInit_out_of_range_witness :
    (subdivisionInit M1 3 none [none, none]
      = Except.error "list index out of range") ∧
    (∃ fs ls, subdivisionInit M1 2 none [none, none] = Except.ok (fs, ls)
      ∧ fs.length = 2) :=
  ⟨(subdivisionInit_out_of_range M1 none [none, none] 3).1 (by decide),
   (subdivisionInit_out_of_range M1 none [none, none] 2).2 (by decide)⟩

/-- C3 (counterexample): for the single-triangle mesh, the edge index
`GSN.forward` hands to its layers contains the directed pair `(0, 1)` but
not its reverse `(1, 0)`: the undirected edge is represented in one
direction only, not as both directed pairs. -/
theorem gsn_edge_index_not_bidirectional :
    (0, 1) ∈ gsnEdgeIndex [(0, 1, 2)] ∧
    (1, 0) ∉ gsnEdgeIndex [(0, 1, 2)] := by
  decide

/-- C3 (amended): the edge index `GSN.forward` hands to each `GSNLayer`
contains every undirected mesh edge exactly once (no duplicates), always
as the sorted pair `(min, max)`; the reversed pair of a non-degenerate
edge is never present, so the bidirectional representation the `GSNLayer`
contract asks for is not provided and aggregation is one-directional. -/
theorem gsn_edge_index_one_direction (faces : List Face) :
    (∀ e ∈ gsnEdgeIndex faces, e.1 ≤ e.2) ∧
    (gsnEdgeIndex faces).Nodup ∧
    (∀ e ∈ allFaceEdges faces, e ∈ gsnEdgeIndex faces) ∧
    (∀ a b, (a, b) ∈ gsnEdgeIndex faces → a ≠ b →
      (b, a) ∉ gsnEdgeIndex faces) := by
  have hle : ∀ e ∈ gsnEdgeIndex faces, e.1 ≤ e.2 := by
    intro e he
    have hmem : e ∈ allFaceEdges faces := mem_edgesPacked.mp he
    rcases List.mem_append.mp hmem with h | h
    · rcases List.mem_append.mp h with h' | h'
      · rcases List.mem_map.mp h' with ⟨f, _, rfl⟩
        exact sortEdge_fst_le_snd _ _
      · rcases List.mem_map.mp h' with ⟨f, _, rfl⟩
        exact sortEdge_fst_le_snd _ _
    · rcases List.mem_map.mp h with ⟨f, _, rfl⟩
      exact sortEdge_fst_le_snd _ _
  refine ⟨hle, nodup_sortEdges (List.nodup_dedup _), ?_, ?_⟩
  · intro e he
    exact mem_edgesPacked.mpr he
  · intro a b hab hne hba
    exact hne (Nat.le_antisymm (hle _ hab) (hle _ hba))

theorem gsn_edge_index_one_direction_witness :
    (1, 0) ∉ gsnEdgeIndex [(0, 1, 2)] :=
  (gsn_edge_index_one_direction [(0, 1, 2)]).2.2.2 0 1 (by decide) (by decide)

/-- C5: a vertex with no incident edge in the edge index receives the
exact zero offset vector from `GSNLayer.forward`: no message is
aggregated for it (the scatter-add stays at the zero buffer) and its
degree-zero inverse-square-root factor is the replaced `0`; in this
exact-real embedding the result is the zero vector, never undefined. -/
theorem gsnLayer_degree_zero_offset (W1 W2 W3 : List (List ℝ))
    (x : List (List ℝ)) (edge_index : List (Nat × Nat)) (v : Nat)
    (hv : v < x.length)
    (hiso : ∀ e ∈ edge_index, e.1 ≠ v ∧ e.2 ≠ v) :
    (gsnLayerForward W1 W2 W3 x edge_index).getD v []
      = List.replicate W3.length 0 := by
  have hfilter : edge_index.filter (fun e => e.2 == v) = [] := by
    apply List.filter_eq_nil_iff.mpr
    intro e he
    simpa using (hiso e he).2
  have hlen : v < ((List.range x.length).map (fun i =>
      vecSum W3.length
        ((edge_index.filter (fun e => e.2 == i)).map (fun e =>
          vecSmul (degInvSqrt (torchDegree (edge_index.map (fun e => e.2)) e.1)
              * degInvSqrt (torchDegree (edge_index.map (fun e => e.2)) e.2))
            (vecSub ((x.map (linMLP W1 W2 W3)).getD e.1 [])
              ((x.map (linMLP W1 W2 W3)).getD e.2 [])))))).length := by
    simpa using hv
  show ((List.range x.length).map _).getD v [] = _
  rw [List.getD_eq_getElem _ _ hlen, List.getElem_map, List.getElem_range,
    hfilter]
  rfl

theorem gsnLayer_degree_zero_offset_witness :
    (gsnLayerForward [[1, 0, 0], [0, 1, 0], [0, 0, 1]]
        [[1, 0, 0], [0, 1, 0], [0, 0, 1]] [[1, 0, 0], [0, 1, 0], [0, 0, 1]]
        [[0, 0, 0], [1, 0, 0], [2, 0, 0]] [(0, 1), (1, 0)]).getD 2 []
      = [0, 0, 0] := by
  have h := gsnLayer_degree_zero_offset
    [[1, 0, 0], [0, 1, 0], [0, 0, 1]] [[1, 0, 0], [0, 1, 0], [0, 0, 1]]
    [[1, 0, 0], [0, 1, 0], [0, 0, 1]]
    [[0, 0, 0], [1, 0, 0], [2, 0, 0]] [(0, 1), (1, 0)] 2
    (by decide) (by decide)
  simpa [List.replicate] using h

theorem edgeMidpoint_comm (p q : V3) : edgeMidpoint p q = edgeMidpoint q p := by
  unfold edgeMidpoint
  rw [add_comm p.1 q.1, add_comm p.2.1 q.2.1, add_comm p.2.2 q.2.2]

theorem mid_sortEdge (vs : List V3) (x y : Nat) :
    edgeMidpoint (vs.getD (sortEdge x y).1 v3zero)
        (vs.getD (sortEdge x y).2 v3zero)
      = edgeMidpoint (vs.getD x v3zero) (vs.getD y v3zero) := by
  unfold sortEdge
  split
  · rfl
  · exact edgeMidpoint_comm _ _

theorem areaVec_child_corner0 (p q r : V3) :
    areaVec p (edgeMidpoint p q) (edgeMidpoint r p)
      = v3smul (1 / 4) (areaVec p q r) := by
  simp only [areaVec, v3cross, v3sub, edgeMidpoint, v3smul, Prod.mk.injEq]
  refine ⟨by ring, by ring, by ring⟩

theorem areaVec_child_corner1 (p q r : V3) :
    areaVec q (edgeMidpoint q r) (edgeMidpoint p q)
      = v3smul (1 / 4) (areaVec p q r) := by
  simp only [areaVec, v3cross, v3sub, edgeMidpoint, v3smul, Prod.mk.injEq]
  refine ⟨by ring, by ring, by ring⟩

theorem areaVec_child_corner2 (p q r : V3) :
    areaVec r (edgeMidpoint r p) (edgeMidpoint q r)
      = v3smul (1 / 4) (areaVec p q r) := by
  simp only [areaVec, v3cross, v3sub, edgeMidpoint, v3smul, Prod.mk.injEq]
  refine ⟨by ring, by ring, by ring⟩

theorem areaVec_child_center (p q r : V3) :
    areaVec (edgeMidpoint q r) (edgeMidpoint r p) (edgeMidpoint p q)
      = v3smul (1 / 4) (areaVec p q r) := by
  simp only [areaVec, v3cross, v3sub, edgeMidpoint, v3smul, Prod.mk.injEq]
  refine ⟨by ring, by ring, by ring⟩

theorem v3dot_smul (s : ℚ) (w u : V3) :
    v3dot (v3smul s w) u = s * v3dot w u := by
  simp only [v3dot, v3smul]
  ring

theorem getD_four_blocks {α : Type} (b0 b1 b2 b3 : List α) (F i : Nat)
    (h0 : b0.length = F) (h1 : b1.length = F) (h2 : b2.length = F)
    (hi : i < F) (d : α) :
    (b0 ++ b1 ++ b2 ++ b3).getD i d = b0.getD i d ∧
    (b0 ++ b1 ++ b2 ++ b3).getD (F + i) d = b1.getD i d ∧
    (b0 ++ b1 ++ b2 ++ b3).getD (2 * F + i) d = b2.getD i d ∧
    (b0 ++ b1 ++ b2 ++ b3).getD (3 * F + i) d = b3.getD i d := by
  refine ⟨?_, ?_, ?_, ?_⟩
  · rw [List.getD_append _ _ _ _ (by simp [h0, h1, h2]; omega),
      List.getD_append _ _ _ _ (by simp [h0, h1]; omega),
      List.getD_append _ _ _ _ (by omega)]
  · rw [List.getD_append _ _ _ _ (by simp [h0, h1, h2]; omega),
      List.getD_append _ _ _ _ (by simp [h0, h1]; omega),
      getD_append_offset b0 b1 d F i h0]
  · rw [List.getD_append _ _ _ _ (by simp [h0, h1, h2]; omega),
      getD_append_offset (b0 ++ b1) b2 d (2 * F) i (by simp [h0, h1]; omega)]
  · rw [getD_append_offset (b0 ++ b1 ++ b2) b3 d (3 * F) i
      (by simp [h0, h1, h2]; omega)]

/-- C2: every one of the 4 child faces produced by `subdivide_faces_fn`
for a parent face has the same winding as the parent: under any fixed
normal convention `nrm`, a positively-wound parent yields 4 positively
wound children (each child's area vector is `1/4` of the parent's), at
every subdivision depth since the statement holds for every mesh. -/
theorem subdivide_preserves_winding (m : Mesh) (nrm : V3) (i k a b c : Nat)
    (hi : i < m.faces.length) (hk : k < 4)
    (hface : m.faces.getD i (0, 0, 0) = (a, b, c))
    (ha : a < m.verts.length) (hb : b < m.verts.length)
    (hc : c < m.verts.length)
    (hccw : 0 < v3dot (areaVec (posAt m.verts a) (posAt m.verts b)
        (posAt m.verts c)) nrm) :
    0 < v3dot (areaVec
        (posAt (newVertsStep m)
          ((subdivide_faces_fn m none).getD (k * m.faces.length + i) (0, 0, 0)).1)
        (posAt (newVertsStep m)
          ((subdivide_faces_fn m none).getD (k * m.faces.length + i) (0, 0, 0)).2.1)
        (posAt (newVertsStep m)
          ((subdivide_faces_fn m none).getD (k * m.faces.length + i) (0, 0, 0)).2.2))
      nrm := by
  have hface' : m.faces[i] = (a, b, c) := by
    rw [← List.getD_eq_getElem m.faces (0, 0, 0) hi]; exact hface
  have hf_mem : ((a : Nat), (b : Nat), (c : Nat)) ∈ m.faces := by
    rw [← hface']; exact List.getElem_mem _
  -- membership of the three sorted edges in edges_packed
  have hm_bc : sortEdge b c ∈ m.edgesPacked := by
    show sortEdge b c ∈ edgesPackedOfFaces m.faces
    exact mem_edgesPacked.mpr (List.mem_append_left _ (List.mem_append_left _
      (List.mem_map.mpr ⟨(a, b, c), hf_mem, rfl⟩)))
  have hm_ca : sortEdge c a ∈ m.edgesPacked := by
    show sortEdge c a ∈ edgesPackedOfFaces m.faces
    exact mem_edgesPacked.mpr (List.mem_append_left _ (List.mem_append_right _
      (List.mem_map.mpr ⟨(a, b, c), hf_mem, rfl⟩)))
  have hm_ab : sortEdge a b ∈ m.edgesPacked := by
    show sortEdge a b ∈ edgesPackedOfFaces m.faces
    exact mem_edgesPacked.mpr (List.mem_append_right _
      (List.mem_map.mpr ⟨(a, b, c), hf_mem, rfl⟩))
  -- positions of original vertices are unchanged in the new vertex buffer
  have hposv : ∀ j, j < m.verts.length →
      posAt (newVertsStep m) j = posAt m.verts j := by
    intro j hj
    unfold posAt newVertsStep
    exact List.getD_append _ _ _ _ hj
  -- positions of edge-midpoint vertices
  have hpose : ∀ x y : Nat, sortEdge x y ∈ m.edgesPacked →
      posAt (newVertsStep m)
          (m.verts.length + idxOf (m.edgesPacked) (sortEdge x y))
        = edgeMidpoint (posAt m.verts x) (posAt m.verts y) := by
    intro x y hmem
    unfold posAt newVertsStep
    rw [getD_append_offset m.verts _ v3zero m.verts.length _ rfl]
    have hlt : idxOf (m.edgesPacked) (sortEdge x y) < (m.edgesPacked).length :=
      idxOf_lt_length hmem
    rw [List.getD_eq_getElem _ _ (by simpa using hlt), List.getElem_map]
    have hgete : (m.edgesPacked)[idxOf (m.edgesPacked) (sortEdge x y)]
        = sortEdge x y := by
      have hgd := getD_idxOf hmem ((0 : Nat), (0 : Nat))
      rwa [List.getD_eq_getElem _ _ hlt] at hgd
    rw [hgete]
    exact mid_sortEdge m.verts x y
  -- the face-to-edge row of face i, offset by the vertex count
  have hlenfe : ((m.facesToEdges).map (offsetTriple m.verts.length)).length
      = m.faces.length := by simp [length_facesToEdges]
  have hfe : ((m.facesToEdges).map (offsetTriple m.verts.length)).getD i (0, 0, 0)
      = (m.verts.length + idxOf (m.edgesPacked) (sortEdge b c),
         m.verts.length + idxOf (m.edgesPacked) (sortEdge c a),
         m.verts.length + idxOf (m.edgesPacked) (sortEdge a b)) := by
    rw [List.getD_eq_getElem _ _ (by rw [hlenfe]; exact hi)]
    simp only [List.getElem_map, Mesh.facesToEdges, hface']
    rfl
  -- the four child blocks
  have hz0 : (List.zipWith (fun f e => ((f : Face).1, (e : Nat × Nat × Nat).2.2, e.2.1))
      m.faces ((m.facesToEdges).map (offsetTriple m.verts.length))).length
      = m.faces.length := by simp [hlenfe]
  have hz1 : (List.zipWith (fun f e => ((f : Face).2.1, (e : Nat × Nat × Nat).1, e.2.2))
      m.faces ((m.facesToEdges).map (offsetTriple m.verts.length))).length
      = m.faces.length := by simp [hlenfe]
  have hz2 : (List.zipWith (fun f e => ((f : Face).2.2, (e : Nat × Nat × Nat).2.1, e.1))
      m.faces ((m.facesToEdges).map (offsetTriple m.verts.length))).length
      = m.faces.length := by simp [hlenfe]
  obtain ⟨h0, h1, h2, h3⟩ := getD_four_blocks
    (List.zipWith (fun f e => ((f : Face).1, (e : Nat × Nat × Nat).2.2, e.2.1))
      m.faces ((m.facesToEdges).map (offsetTriple m.verts.length)))
    (List.zipWith (fun f e => ((f : Face).2.1, (e : Nat × Nat × Nat).1, e.2.2))
      m.faces ((m.facesToEdges).map (offsetTriple m.verts.length)))
    (List.zipWith (fun f e => ((f : Face).2.2, (e : Nat × Nat × Nat).2.1, e.1))
      m.faces ((m.facesToEdges).map (offsetTriple m.verts.length)))
    ((m.facesToEdges).map (offsetTriple m.verts.length))
    m.faces.length i hz0 hz1 hz2 hi ((0 : Nat), (0 : Nat), (0 : Nat))
  have hsub : subdivide_faces_fn m none
      = (List.zipWith (fun f e => ((f : Face).1, (e : Nat × Nat × Nat).2.2, e.2.1))
          m.faces ((m.facesToEdges).map (offsetTriple m.verts.length)))
        ++ (List.zipWith (fun f e => ((f : Face).2.1, (e : Nat × Nat × Nat).1, e.2.2))
          m.faces ((m.facesToEdges).map (offsetTriple m.verts.length)))
        ++ (List.zipWith (fun f e => ((f : Face).2.2, (e : Nat × Nat × Nat).2.1, e.1))
          m.faces ((m.facesToEdges).map (offsetTriple m.verts.length)))
        ++ ((m.facesToEdges).map (offsetTriple m.verts.length)) := rfl
  have hzget : ∀ (g : Face → Nat × Nat × Nat → Face),
      (List.zipWith g m.faces
        ((m.facesToEdges).map (offsetTriple m.verts.length))).getD i
          ((0 : Nat), (0 : Nat), (0 : Nat))
      = g (a, b, c)
          (m.verts.length + idxOf (m.edgesPacked) (sortEdge b c),
           m.verts.length + idxOf (m.edgesPacked) (sortEdge c a),
           m.verts.length + idxOf (m.edgesPacked) (sortEdge a b)) := by
    intro g
    rw [getD_zipWith g _ _ i hi (by rw [hlenfe]; exact hi) _ (0, 0, 0) (0, 0, 0),
      hface, hfe]
  interval_cases k
  · rw [hsub]
    simp only [Nat.zero_mul, Nat.zero_add]
    rw [h0, hzget]
    simp only
    rw [hposv a ha, hpose a b hm_ab, hpose c a hm_ca,
      areaVec_child_corner0 (posAt m.verts a) (posAt m.verts b) (posAt m.verts c),
      v3dot_smul]
    linarith
  · rw [hsub]
    simp only [Nat.one_mul]
    rw [h1, hzget]
    simp only
    rw [hposv b hb, hpose b c hm_bc, hpose a b hm_ab,
      areaVec_child_corner1 (posAt m.verts a) (posAt m.verts b) (posAt m.verts c),
      v3dot_smul]
    linarith
  · rw [hsub, h2, hzget]
    simp only
    rw [hposv c hc, hpose c a hm_ca, hpose b c hm_bc,
      areaVec_child_corner2 (posAt m.verts a) (posAt m.verts b) (posAt m.verts c),
      v3dot_smul]
    linarith
  · rw [hsub, h3, hfe]
    simp only
    rw [hpose b c hm_bc, hpose c a hm_ca, hpose a b hm_ab,
      areaVec_child_center (posAt m.verts a) (posAt m.verts b) (posAt m.verts c),
      v3dot_smul]
    linarith

theorem subdivide_preserves_winding_witness :
    0 < v3dot (areaVec
        (posAt (newVertsStep M1)
          ((subdivide_faces_fn M1 none).getD (3 * M1.faces.length + 0) (0, 0, 0)).1)
        (posAt (newVertsStep M1)
          ((subdivide_faces_fn M1 none).getD (3 * M1.faces.length + 0) (0, 0, 0)).2.1)
        (posAt (newVertsStep M1)
          ((subdivide_faces_fn M1 none).getD (3 * M1.faces.length + 0) (0, 0, 0)).2.2))
      (0, 0, 1) :=
  subdivide_preserves_winding M1 (0, 0, 1) 0 3 0 1 2 (by decide) (by decide)
    (by decide) (by decide) (by decide) (by decide)
    (by norm_num [v3dot, areaVec, v3cross, v3sub, posAt, M1, v3zero])

/-- C4 (counterexample): `GSN.forward` branches on the `subdivided_faces`
list being non-empty, not on an entry existing for the current level: with
two layers and a one-entry `subdivided_faces` list, level 1 raises
`IndexError` instead of retaining the deformed, undivided buffers as the
claim states. -/
theorem gsn_forward_short_subdiv_list_error :
    gsnForward [zeroLayer, zeroLayer] [[(0, 0, 0), (1, 0, 0), (0, 1, 0)]]
        [(0, 1, 2)] [[(0, 3, 4)]]
      = Except.error "list index out of range" := rfl

/-- C4 (amended): the loop body of `GSN.forward` at level `l` deforms the
vertices by the layer's offsets and then: when the `subdivided_faces`
list is empty, retains the deformed, undivided buffers; when the list is
non-empty and has an entry at `l`, appends the edge midpoints of the
already-deformed vertices to every sample's buffer and adopts entry `l`
as the shared (batch-broadcast) face list; when the list is non-empty but
exhausted (`l ≥ length`), raises `IndexError` instead of passing through. -/
theorem gsn_level_cases (layer : OffsetLayer) (verts : List (List V3))
    (faces : List Face) (subdivided_faces : List (List Face)) (l : Nat) :
    (subdivided_faces = [] →
      gsnLevel layer verts faces subdivided_faces l
        = Except.ok (gsnDeformed layer verts faces, faces)) ∧
    (l < subdivided_faces.length →
      gsnLevel layer verts faces subdivided_faces l
        = Except.ok (appendEdgeMidpoints (gsnDeformed layer verts faces) faces,
            subdivided_faces.getD l [])) ∧
    (subdivided_faces ≠ [] → subdivided_faces.length ≤ l →
      gsnLevel layer verts faces subdivided_faces l
        = Except.error "list index out of range") := by
  refine ⟨?_, ?_, ?_⟩
  · intro h
    subst h
    simp [gsnLevel]
  · intro h
    have hne : 0 < subdivided_faces.length := by omega
    have ha : subdivided_faces[l]? = some (subdivided_faces[l]) :=
      List.getElem?_eq_getElem h
    simp [gsnLevel, pyIndex, hne, ha, List.getD_eq_getElem _ _ h]
  · intro h hlen
    have hne : 0 < subdivided_faces.length := List.length_pos.mpr h
    have ha : subdivided_faces[l]? = none := List.getElem?_eq_none hlen
    simp [gsnLevel, pyIndex, hne, ha]

theorem gsn_level_cases_witness :
    (gsnLevel zeroLayer [[(0, 0, 0), (1, 0, 0), (0, 1, 0)]] [(0, 1, 2)] [] 0
      = Except.ok (gsnDeformed zeroLayer
          [[(0, 0, 0), (1, 0, 0), (0, 1, 0)]] [(0, 1, 2)], [(0, 1, 2)])) ∧
    (gsnLevel zeroLayer [[(0, 0, 0), (1, 0, 0), (0, 1, 0)]] [(0, 1, 2)]
        [[(0, 3, 4)]] 1
      = Except.error "list index out of range") :=
  ⟨(gsn_level_cases zeroLayer [[(0, 0, 0), (1, 0, 0), (0, 1, 0)]]
      [(0, 1, 2)] [] 0).1 rfl,
   (gsn_level_cases zeroLayer [[(0, 0, 0), (1, 0, 0), (0, 1, 0)]]
      [(0, 1, 2)] [[(0, 3, 4)]] 1).2.2 (by decide) (by decide)⟩

theorem length_subdivide_none (m : Mesh) :
    (subdivide_faces_fn m none).length = 4 * m.faces.length := by
  have h : ((m.facesToEdges).map (offsetTriple m.verts.length)).length
      = m.faces.length := by simp [length_facesToEdges]
  simpa [subdivide_faces_fn] using length_subdividedChildren m.faces _ h

theorem pyIndex_ok {α : Type} {l : List α} {i : Nat} {a : α}
    (h : pyIndex l i = Except.ok a) : l[i]? = some a := by
  unfold pyIndex at h
  cases hx : l[i]? with
  | none => rw [hx] at h; simp at h
  | some b =>
    rw [hx] at h
    simp only [Except.ok.injEq] at h
    exact congrArg some h

theorem getD_eq_of_getElem? {α : Type} {l : List α} {i : Nat} {a : α} (d : α)
    (h : l[i]? = some a) : l.getD i d = a := by
  rw [List.getD_eq_getD_get?, List.get?_eq_getElem?, h]
  rfl

theorem subdivisionInitAux_labels (allow : List (Option (List Bool))) :
    ∀ (fuel l : Nat) (mesh : Mesh) (lbl : List Nat)
      (fs : List (List Face)) (ls : List (Option (List Nat))),
      subdivisionInitAux mesh (some lbl) allow l fuel = Except.ok (fs, ls) →
      fs.length = fuel ∧ ls.length = fuel ∧
      (0 < fuel → ls.getD 0 none = some (tile4 lbl)) ∧
      (∀ j, j + 1 < fuel →
        ls.getD (j + 1) none = (ls.getD j none).map tile4) ∧
      (mesh.faces.length ≤ lbl.length →
        (∀ j, j < fuel → ∀ mask, allow.getD (l + j) none = some mask →
          mask.length = (if j = 0 then mesh.faces.length
            else (fs.getD (j - 1) []).length)) →
        (∀ j, j < fuel → ∃ lj, ls.getD j none = some lj ∧
          (fs.getD j []).length ≤ lj.length) ∧
        (∀ j, j < fuel → ∀ mask, allow.getD (l + j) none = some mask →
          false ∈ mask → ∀ lj, ls.getD j none = some lj →
          lj.length ≠ (fs.getD j []).length)) := by
  intro fuel
  induction fuel with
  | zero =>
    intro l mesh lbl fs ls h
    obtain ⟨hfs, hls⟩ : ([] : List (List Face)) = fs ∧
        ([] : List (Option (List Nat))) = ls := by
      simpa [subdivisionInitAux, Prod.mk.injEq] using h
    subst hfs; subst hls
    refine ⟨rfl, rfl, ?_, ?_, ?_⟩
    · intro h0; exact absurd h0 (by omega)
    · intro j hj; exact absurd hj (by omega)
    · intro _ _
      exact ⟨fun j hj => absurd hj (by omega), fun j hj => absurd hj (by omega)⟩
  | succ fuel ih =>
    intro l mesh lbl fs ls h
    cases hx : allow[l]? with
    | none =>
      have hstep : subdivisionInitAux mesh (some lbl) allow l (fuel + 1)
          = Except.error "list index out of range" := by
        simp only [subdivisionInitAux, pyIndex, hx]
      rw [hstep] at h
      simp at h
    | some a =>
      cases hrec : subdivisionInitAux
          ⟨newVertsStep mesh, subdivide_faces_fn mesh a⟩
          (some (tile4 lbl)) allow (l + 1) fuel with
      | error e =>
        have hstep : subdivisionInitAux mesh (some lbl) allow l (fuel + 1)
            = Except.error e := by
          simp only [subdivisionInitAux, pyIndex, hx, Option.map_some']
          rw [hrec]
        rw [hstep] at h
        simp at h
      | ok p =>
        obtain ⟨fs', ls'⟩ := p
        have hstep : subdivisionInitAux mesh (some lbl) allow l (fuel + 1)
            = Except.ok (subdivide_faces_fn mesh a :: fs',
                some (tile4 lbl) :: ls') := by
          simp only [subdivisionInitAux, pyIndex, hx, Option.map_some']
          rw [hrec]
        rw [hstep] at h
        simp only [Except.ok.injEq, Prod.mk.injEq] at h
        obtain ⟨hfs, hls⟩ := h
        subst hfs; subst hls
        obtain ⟨ih1, ih2, ih3, ih4, ih5⟩ := ih (l + 1)
          ⟨newVertsStep mesh, subdivide_faces_fn mesh a⟩ (tile4 lbl) fs' ls'
          hrec
        refine ⟨by simp [ih1], by simp [ih2], fun _ => rfl, ?_, ?_⟩
        · intro j hj
          cases j with
          | zero =>
            have h0 := ih3 (by omega)
            rw [List.getD_cons_succ, List.getD_cons_zero, h0]
            rfl
          | succ j' =>
            have h' := ih4 j' (by omega)
            simpa [List.getD_cons_succ] using h'
        · intro hle hfit
          have hgd : allow.getD l none = a := getD_eq_of_getElem? none hx
          have hnewlen : (subdivide_faces_fn mesh a).length
              ≤ (tile4 lbl).length := by
            have hT : (tile4 lbl).length = 4 * lbl.length := length_tile4 lbl
            cases a with
            | none =>
              have hS := length_subdivide_none mesh
              omega
            | some mask =>
              have hm0 : allow.getD (l + 0) none = some mask := by
                simpa using hgd
              have hml := hfit 0 (by omega) mask hm0
              have hml' : mask.length = mesh.faces.length := by
                simpa using hml
              have hS := length_subdivide_masked mesh mask hml'
              have hsum := count_false_add_count_true mask
              omega
          have hfit' : ∀ j, j < fuel → ∀ mask,
              allow.getD (l + 1 + j) none = some mask →
              mask.length = (if j = 0
                then (Mesh.mk (newVertsStep mesh)
                  (subdivide_faces_fn mesh a)).faces.length
                else (fs'.getD (j - 1) []).length) := by
            intro j hj mask hm
            have harith : l + 1 + j = l + (j + 1) := by omega
            rw [harith] at hm
            have hj' := hfit (j + 1) (by omega) mask hm
            cases j with
            | zero => simpa using hj'
            | succ j' => simpa [List.getD_cons_succ] using hj'
          obtain ⟨ihinv, ihmis⟩ := ih5 hnewlen hfit'
          constructor
          · intro j hj
            cases j with
            | zero => exact ⟨tile4 lbl, rfl, by simpa using hnewlen⟩
            | succ j' =>
              have h' := ihinv j' (by omega)
              simpa [List.getD_cons_succ] using h'
          · intro j hj mask hm hfalse lj hlj
            cases j with
            | zero =>
              have hm0 : allow.getD l none = some mask := by simpa using hm
              have haeq : a = some mask := by rw [← hgd, hm0]
              subst haeq
              have hlje : lj = tile4 lbl := by
                simpa using hlj.symm
              subst hlje
              have hm0' : allow.getD (l + 0) none = some mask := by
                simpa using hm0
              have hml := hfit 0 (by omega) mask hm0'
              have hml' : mask.length = mesh.faces.length := by
                simpa using hml
              have hS := length_subdivide_masked mesh mask hml'
              have hpos : 0 < mask.count false := List.count_pos_iff.mpr hfalse
              have hsum := count_false_add_count_true mask
              have hT : (tile4 lbl).length = 4 * lbl.length := length_tile4 lbl
              simp only [List.getD_cons_zero]
              omega
            | succ j' =>
              have hm' : allow.getD (l + 1 + j') none = some mask := by
                have harith : l + 1 + j' = l + (j' + 1) := by omega
                rw [harith]; exact hm
              have h' := ihmis j' (by omega) mask hm' hfalse lj
                (by simpa [List.getD_cons_succ] using hlj)
              simpa [List.getD_cons_succ] using h'

/-- C9: over a whole `Subdivision.__init__` run of any number of levels,
the level-0 stored label array is the 4-fold tiling of the input labels
and every later level's stored label array is exactly the 4-fold tiling
of the previous level's — stated for arbitrary allow-masks, so the label
computation is independent of them; consequently, when each supplied mask
has the length of its level's face array (Python's shape requirement), at
every level whose mask excludes at least one face the stored label array
exists and its length differs from that level's stored face array
length. -/
theorem subdivision_labels_mask_mismatch_all_levels
    (m : Mesh) (lbl : List Nat) (allow : List (Option (List Bool)))
    (L : Nat) (fs : List (List Face)) (ls : List (Option (List Nat)))
    (hrun : subdivisionInit m L (some lbl) allow = Except.ok (fs, ls))
    (hlbl : lbl.length = m.faces.length) :
    (0 < L → ls.getD 0 none = some (tile4 lbl)) ∧
    (∀ j, j + 1 < L → ls.getD (j + 1) none = (ls.getD j none).map tile4) ∧
    ((∀ j, j < L → ∀ mask, allow.getD j none = some mask →
        mask.length = (if j = 0 then m.faces.length
          else (fs.getD (j - 1) []).length)) →
      ∀ j, j < L → ∀ mask, allow.getD j none = some mask → false ∈ mask →
        ∃ lj, ls.getD j none = some lj ∧
          lj.length ≠ (fs.getD j []).length) := by
  obtain ⟨h1, h2, h3, h4, h5⟩ :=
    subdivisionInitAux_labels allow L 0 m lbl fs ls hrun
  refine ⟨h3, h4, ?_⟩
  intro hfit
  have hfit0 : ∀ j, j < L → ∀ mask, allow.getD (0 + j) none = some mask →
      mask.length = (if j = 0 then m.faces.length
        else (fs.getD (j - 1) []).length) := by
    intro j hj mask hm
    rw [Nat.zero_add] at hm
    exact hfit j hj mask hm
  obtain ⟨hinv, hmis⟩ := h5 (le_of_eq hlbl.symm) hfit0
  intro j hj mask hm hfalse
  obtain ⟨lj, hlj, _⟩ := hinv j hj
  exact ⟨lj, hlj,
    hmis j hj mask (by rw [Nat.zero_add]; exact hm) hfalse lj hlj⟩

theorem subdivision_labels_mask_mismatch_all_levels_witness :
    (([some (tile4 [7]), some (tile4 (tile4 [7]))] :
        List (Option (List Nat))).getD 1 none
      = (([some (tile4 [7]), some (tile4 (tile4 [7]))] :
        List (Option (List Nat))).getD 0 none).map tile4) ∧
    (∃ lj, ([some (tile4 [7]), some (tile4 (tile4 [7]))] :
        List (Option (List Nat))).getD 1 none = some lj ∧
      lj.length ≠ ((([[(0, 1, 2)], [(0, 1, 2)]] :
        List (List Face)).getD 1 []).length)) := by
  have h := subdivision_labels_mask_mismatch_all_levels M1 [7]
    [some [false], some [false]] 2 [[(0, 1, 2)], [(0, 1, 2)]]
    [some (tile4 [7]), some (tile4 (tile4 [7]))] (by rfl) (by rfl)
  refine ⟨h.2.1 0 (by omega), ?_⟩
  refine h.2.2 ?_ 1 (by omega) [false] (by rfl) (by decide)
  intro j hj mask hm
  interval_cases j
  · have hmask : mask = [false] := by simpa using hm.symm
    subst hmask
    rfl
  · have hmask : mask = [false] := by simpa using hm.symm
    subst hmask
    rfl
